import Mathlib

/-!
Verification of the TDA-Tuning repository
(`src/tda_cover_parameters_tuning.py`), a grid-search tuner for the Cover
parameters of a TDA Mapper pipeline.

The file is a shallow embedding of the repository's own logic.  External
library calls (kmapper, sklearn, netrd, scipy, numpy, pandas, CPython's
`random` module) are modelled:

* the kmapper graph-building pipeline is an abstract function
  `mapper : List Row → Cover → G` — what the repository controls is which
  value ends up in which `Cover` slot;
* netrd's NetSimile distance is the Canberra distance between abstract
  graph signatures;
* `random.sample` is modelled by a deterministic without-replacement
  sampler driven by a linear congruential generator: the concrete random
  stream differs from CPython's Mersenne Twister, but the structure the
  claims depend on (k pairwise-distinct draws from the population, one
  global generator state threaded through the calls, re-seeded by
  `random.seed`) is faithful;
* Python's `round` (round half to even) is modelled on ℚ;
* `numpy.reshape` / transpose / `pandas.DataFrame` are modelled on lists,
  with a raising reshape modelled as `Option`.

Machine floats are modelled by ℚ throughout; no claim in scope depends on
floating-point rounding.
-/

namespace TDATuning

/-- A dataset row (one observation, a vector of numeric features). -/
abbrev Row := List ℚ

/-- The argument record of kmapper's Cover constructor:
the repository calls it as
Cover(perc_overlap=perc_overlap, n_cubes=n_cubes)
inside create_tda_graph. -/
structure Cover where
  perc_overlap : ℚ
  n_cubes : ℚ

/-- Attributes stored by the CoverTuning constructor
(the projector and the KeplerMapper object are part of the abstract
mapper function, see create_tda_graph). -/
structure CoverTuning where
  data : List Row
  res_range : List ℚ
  gain_range : List ℚ
  n_bootstrap : Nat
  seed_value : Nat

/-- The mutable world a method call sees: the instance itself plus the
global state of Python's random module (mutated by random.seed and
random.sample). -/
structure World where
  inst : CoverTuning
  rng : Nat

/-- One step of the random-number generator modelling the random module
(a linear congruential generator; stands in for CPython's Mersenne
Twister, whose exact stream no claim depends on). -/
def lcg (s : Nat) : Nat := (1103515245 * s + 12345) % 2147483648

/-- Models random.sample(pop, k): draws k pairwise-distinct elements
from pop (sampling without replacement: each drawn element is removed
from the population before the next draw), threading the generator
state.  For k larger than the population size CPython raises; the model
then returns a shorter list, and theorems add the k ≤ pop.length bound. -/
def randomSample : Nat → List Nat → Nat → List Nat × Nat
  | 0, _, s => ([], s)
  | k + 1, pop, s =>
    let s' := lcg s
    if pop.length = 0 then ([], s')
    else
      let i := s' % pop.length
      let x := pop.getD i 0
      let rest := randomSample k (pop.eraseIdx i) s'
      (x :: rest.1, rest.2)

/-- Python's built-in round on a rational: round half to even. -/
def pyround (q : ℚ) : ℤ :=
  if q - ⌊q⌋ < 1 / 2 then ⌊q⌋
  else if 1 / 2 < q - ⌊q⌋ then ⌊q⌋ + 1
  else if ⌊q⌋ % 2 = 0 then ⌊q⌋ else ⌊q⌋ + 1

/-- The loop of get_bootstrap_sample: n successive random.sample draws
of size k from the same population, threading the generator state. -/
def drawSamples : Nat → List Nat → Nat → Nat → List (List Nat) × Nat
  | 0, _, _, s => ([], s)
  | n + 1, pop, k, s =>
    let y := randomSample k pop s
    let rest := drawSamples n pop k y.2
    (y.1 :: rest.1, rest.2)

/-- The index draws performed by CoverTuning.get_bootstrap_sample:
data_idx = self.data.index.tolist() (positions 0..n-1), the generator is
re-seeded with self.seed_value (random.seed), then n_bootstrap draws of
size round(len(data_idx) * sample_ratio) are made.  frac is the
sample-fraction argument (default 0.7). -/
def bootstrap_indices (w : World) (frac : ℚ) : List (List Nat) × Nat :=
  let data_idx := List.range w.inst.data.length
  let k := (pyround ((data_idx.length : ℚ) * frac)).toNat
  drawSamples w.inst.n_bootstrap data_idx k w.inst.seed_value

/-- CoverTuning.get_bootstrap_sample: returns one row-array per bootstrap
draw (self.data.iloc[current_idx, :].to_numpy()); the incoming generator
state is discarded because the call starts with random.seed. -/
def get_bootstrap_sample (w : World) (frac : ℚ) : List (List Row) × World :=
  let r := bootstrap_indices w frac
  (r.1.map (fun y => y.map (fun i => w.inst.data.getD i [])), ⟨w.inst, r.2⟩)

/-- CoverTuning.create_tda_graph(x, perc_overlap, n_cubes): the external
pipeline (fit_transform, map with DBSCAN, to_nx) is the abstract mapper;
the repository's own contribution is the Cover record it builds, with
its third positional argument in the perc_overlap slot and its fourth in
the n_cubes slot. -/
def create_tda_graph {G : Type} (mapper : List Row → Cover → G) (x : List Row)
    (p : ℚ) (n : ℚ) : G :=
  mapper x ⟨p, n⟩

/-- CoverTuning.graph_distance_metric over an abstract directed graph
distance.  The source iterates i over all graphs and j over i+1.., but
the body of the inner loop ends in an unconditional return, so only the
pair (0, 1) is ever processed: both directed scores for that pair are
put in the dict (one key when they are equal) and their mean is
returned.  With fewer than two graphs both loops are empty and the
function falls off the end, returning None. -/
def graph_distance_metric {G : Type} (dist : G → G → ℚ) (graph_list : List G) :
    Option ℚ :=
  match graph_list with
  | g0 :: g1 :: _ =>
    let dij := dist g0 g1
    let dji := dist g1 g0
    let vals := if dij = dji then [dij] else [dij, dji]
    some (vals.sum / (vals.length : ℚ))
  | _ => none

/-- Runs f over the list from the left, aborting at the first failure:
models a Python loop in which a raising iteration aborts the call. -/
def optionMapM {α β : Type} (l : List α) (f : α → Option β) : Option (List β) :=
  match l with
  | [] => some []
  | a :: rest =>
    match f a, optionMapM rest f with
    | some b, some r => some (b :: r)
    | _, _ => none

/-- CoverTuning.grid_search: draws the bootstrap samples once, then for
every res_range[i] and gain_range[j] builds one graph per bootstrap
sample via create_tda_graph(bootstrap_samples[k], res_current,
gain_current) — note the positional call: res_current lands in the
perc_overlap slot and gain_current in the n_cubes slot — and stores the
graph_distance_metric value in cell (i, j).  Storing None into the numpy
matrix raises, which the Option models. -/
def grid_search {G : Type} (mapper : List Row → Cover → G) (dist : G → G → ℚ)
    (w : World) : Option (List (List ℚ)) × World :=
  let bs := get_bootstrap_sample w (7 / 10)
  let m := optionMapM w.inst.res_range (fun res_current =>
    optionMapM w.inst.gain_range (fun gain_current =>
      graph_distance_metric dist
        (bs.1.map (fun x => create_tda_graph mapper x res_current gain_current))))
  (m, bs.2)

/-- Canberra distance with the 0/0 = 0 convention: models
scipy.spatial.distance.canberra, which netrd's NetSimile.dist applies to
the two graph signatures. -/
def canberra (x y : List ℚ) : ℚ :=
  (List.zipWith (fun a b => if |a| + |b| = 0 then 0 else |a - b| / (|a| + |b|)) x y).sum

/-- netrd NetSimile.dist: Canberra distance between the graphs' feature
signatures; the signature extraction is abstract. -/
def netsimile_dist {G : Type} (signature : G → List ℚ) (g1 g2 : G) : ℚ :=
  canberra (signature g1) (signature g2)

/-- Attributes of the GraphProperties subclass (data, res, gain, seed;
the parent fields it nulls out play no role in its one method). -/
structure GraphProperties where
  data : List Row
  res : ℚ
  gain : ℚ
  seed : Nat

/-- Models numpy reshape of a flat vector to an r-by-c matrix: succeeds
exactly when the element count matches r * c, raising otherwise. -/
def np_reshape (v : List ℚ) (r c : Nat) : Option (List (List ℚ)) :=
  if v.length = r * c then
    some ((List.range r).map (fun i => (v.drop (i * c)).take c))
  else none

/-- Models numpy matrix transpose on a well-formed (rectangular,
nonempty-row) matrix. -/
def np_transpose (m : List (List ℚ)) : List (List ℚ) :=
  match m with
  | [] => []
  | r0 :: _ => (List.range r0.length).map (fun j => m.map (fun row => row.getD j 0))

/-- The fixed row labels of the statistics table. -/
def row_names : List String := ["mean", "median", "std", "skewness", "kurtosis"]

/-- The fixed column labels of the statistics table. -/
def col_names : List String :=
  ["node degree", "clustering coefficient", "average degree of neighborhood",
   "average clustering coefficient of neighborhood",
   "number of edges in the neighborhood",
   "number of outgoing edges from the neighborhood",
   "number of neighbors of neighbors (not in neighborhood)"]

/-- A labeled pandas DataFrame: values plus row index and column names. -/
structure Frame where
  values : List (List ℚ)
  index : List String
  columns : List String

/-- The tail of GraphProperties.graph_properties_stats: reshape the
signature vector to (7, 5), transpose to (5, 7), and label rows and
columns. -/
def stats_table (sig : List ℚ) : Option Frame :=
  match np_reshape sig 7 5 with
  | none => none
  | some m => some ⟨np_transpose m, row_names, col_names⟩

/-- Models netrd graph_signature: for every feature column of the
feature matrix, apply each aggregate statistic (netrd uses mean, median,
std, skewness, kurtosis) and concatenate feature-major; the aggregate
functions are abstract parameters. -/
def graph_signature (stats : List (List ℚ → ℚ)) (features : List (List ℚ)) :
    List ℚ :=
  (features.map (fun col => stats.map (fun s => s col))).join

/-- GraphProperties.graph_properties_stats: builds the graph for the
stored (res, gain) pair — again passed positionally into the
(perc_overlap, n_cubes) slots — extracts the feature matrix (abstract
featX, netrd feature_extraction, one column per structural feature),
computes the signature, and builds the labeled table. -/
def graph_properties_stats {G : Type} (mapper : List Row → Cover → G)
    (featX : G → List (List ℚ)) (stats : List (List ℚ → ℚ))
    (gp : GraphProperties) : Option Frame :=
  stats_table (graph_signature stats
    (featX (create_tda_graph mapper gp.data gp.res gp.gain)))

/- ------------------------------------------------------------------ -/
/- Helper lemmas (shared between the claim theorems).                  -/
/- ------------------------------------------------------------------ -/

theorem gdm_cons_cons {G : Type} (dist : G → G → ℚ) (g0 g1 : G) (rest : List G) :
    graph_distance_metric dist (g0 :: g1 :: rest) =
      some ((dist g0 g1 + dist g1 g0) / 2) := by
  by_cases h : dist g0 g1 = dist g1 g0
  · simp only [graph_distance_metric, if_pos h, Option.some_inj, List.sum_cons,
      List.sum_nil, List.length_cons, List.length_nil]
    rw [h]
    push_cast
    ring
  · simp only [graph_distance_metric, if_neg h, Option.some_inj, List.sum_cons,
      List.sum_nil, List.length_cons, List.length_nil]
    push_cast
    ring

theorem canberra_self (x : List ℚ) : canberra x x = 0 := by
  induction x with
  | nil => rfl
  | cons a t ih =>
    simp only [canberra, List.zipWith_cons_cons, List.sum_cons] at ih ⊢
    rw [ih]
    by_cases h : |a| + |a| = 0 <;> simp [h]

theorem gdm_short {G : Type} (dist : G → G → ℚ) (gl : List G) (h : gl.length < 2) :
    graph_distance_metric dist gl = none := by
  match gl with
  | [] => rfl
  | [g] => rfl
  | g0 :: g1 :: rest => simp at h; omega

theorem getD_not_mem_eraseIdx {pop : List Nat} {i : Nat} (hi : i < pop.length)
    (hnd : pop.Nodup) : pop.getD i 0 ∉ pop.eraseIdx i := by
  intro hmem
  rw [List.mem_eraseIdx_iff_get] at hmem
  obtain ⟨j, hj, hget⟩ := hmem
  rw [List.getD_eq_get _ _ hi] at hget
  exact hj (congrArg Fin.val (hnd.get_inj_iff.mp hget))

theorem randomSample_length (k : Nat) : ∀ (pop : List Nat) (s : Nat),
    k ≤ pop.length → (randomSample k pop s).1.length = k := by
  induction k with
  | zero => intro pop s _; rfl
  | succ k ih =>
    intro pop s h
    have hp : ¬ pop.length = 0 := by omega
    have hi : lcg s % pop.length < pop.length := Nat.mod_lt _ (by omega)
    have he : (pop.eraseIdx (lcg s % pop.length)).length = pop.length - 1 := by
      rw [List.length_eraseIdx, if_pos hi]
    simp only [randomSample, if_neg hp, List.length_cons]
    rw [ih _ _ (by omega)]

theorem randomSample_subset (k : Nat) : ∀ (pop : List Nat) (s : Nat),
    ∀ a ∈ (randomSample k pop s).1, a ∈ pop := by
  induction k with
  | zero => intro pop s a ha; simp only [randomSample, List.not_mem_nil] at ha
  | succ k ih =>
    intro pop s a ha
    by_cases hp : pop.length = 0
    · simp only [randomSample, if_pos hp, List.not_mem_nil] at ha
    · have hi : lcg s % pop.length < pop.length := Nat.mod_lt _ (Nat.pos_of_ne_zero hp)
      simp only [randomSample, if_neg hp, List.mem_cons] at ha
      rcases ha with h | h
      · rw [h, List.getD_eq_getElem _ _ hi]
        exact List.getElem_mem hi
      · exact List.eraseIdx_subset _ _ (ih _ _ _ h)

theorem randomSample_nodup (k : Nat) : ∀ (pop : List Nat) (s : Nat),
    pop.Nodup → (randomSample k pop s).1.Nodup := by
  induction k with
  | zero => intro pop s _; exact List.nodup_nil
  | succ k ih =>
    intro pop s hnd
    by_cases hp : pop.length = 0
    · simp only [randomSample, if_pos hp, List.nodup_nil]
    · have hi : lcg s % pop.length < pop.length := Nat.mod_lt _ (Nat.pos_of_ne_zero hp)
      have hsub : List.Sublist (pop.eraseIdx (lcg s % pop.length)) pop :=
        List.eraseIdx_sublist _ _
      simp only [randomSample, if_neg hp, List.nodup_cons]
      exact ⟨fun hmem => getD_not_mem_eraseIdx hi hnd (randomSample_subset k _ _ _ hmem),
        ih _ _ (hsub.nodup hnd)⟩

theorem drawSamples_length (n : Nat) : ∀ (pop : List Nat) (k s : Nat),
    (drawSamples n pop k s).1.length = n := by
  induction n with
  | zero => intro pop k s; rfl
  | succ n ih => intro pop k s; simp only [drawSamples, List.length_cons, ih]

theorem drawSamples_mem (n : Nat) : ∀ (pop : List Nat) (k s : Nat),
    ∀ y ∈ (drawSamples n pop k s).1, ∃ t, y = (randomSample k pop t).1 := by
  induction n with
  | zero => intro pop k s y hy; simp [drawSamples] at hy
  | succ n ih =>
    intro pop k s y hy
    simp only [drawSamples, List.mem_cons] at hy
    rcases hy with h | h
    · exact ⟨s, h⟩
    · exact ih _ _ _ _ h

theorem optionMapM_length {α β : Type} {f : α → Option β} :
    ∀ {l : List α} {r : List β}, optionMapM l f = some r → r.length = l.length := by
  intro l
  induction l with
  | nil => intro r h; simp only [optionMapM, Option.some_inj] at h; simp [← h]
  | cons a t ih =>
    intro r h
    simp only [optionMapM] at h
    cases hfa : f a with
    | none => rw [hfa] at h; cases h
    | some b =>
      rw [hfa] at h
      cases hrec : optionMapM t f with
      | none => rw [hrec] at h; cases h
      | some r0 =>
        rw [hrec] at h
        cases h
        simp [ih hrec]

theorem optionMapM_mem {α β : Type} {f : α → Option β} :
    ∀ {l : List α} {r : List β}, optionMapM l f = some r →
      ∀ b ∈ r, ∃ a ∈ l, f a = some b := by
  intro l
  induction l with
  | nil =>
    intro r h b hb
    simp only [optionMapM, Option.some_inj] at h
    rw [← h] at hb
    cases hb
  | cons a t ih =>
    intro r h b hb
    simp only [optionMapM] at h
    cases hfa : f a with
    | none => rw [hfa] at h; cases h
    | some b0 =>
      rw [hfa] at h
      cases hrec : optionMapM t f with
      | none => rw [hrec] at h; cases h
      | some r0 =>
        rw [hrec] at h
        cases h
        rcases List.mem_cons.mp hb with h1 | h1
        · exact ⟨a, List.mem_cons_self _ _, by rw [hfa, h1]⟩
        · obtain ⟨a1, ha1, hfa1⟩ := ih hrec b h1
          exact ⟨a1, List.mem_cons_of_mem _ ha1, hfa1⟩

theorem optionMapM_of_forall_some {α β : Type} {f : α → Option β} {g : α → β}
    (hf : ∀ a, f a = some (g a)) : ∀ (l : List α), optionMapM l f = some (l.map g) := by
  intro l
  induction l with
  | nil => rfl
  | cons a t ih => simp only [optionMapM, hf a, ih, List.map_cons]

theorem optionMapM_none_of_head {α β : Type} {f : α → Option β} {a : α} {t : List α}
    (h : f a = none) : optionMapM (a :: t) f = none := by
  simp only [optionMapM, h]

theorem graph_signature_length (stats : List (List ℚ → ℚ)) :
    ∀ features : List (List ℚ),
      (graph_signature stats features).length = features.length * stats.length := by
  intro features
  induction features with
  | nil => simp [graph_signature]
  | cons c t ih =>
    show ((stats.map fun s => s c) ++ graph_signature stats t).length = _
    rw [List.length_append, List.length_map, ih, List.length_cons]
    ring

theorem reshape_row_length {v : List ℚ} {r c : Nat} (h : v.length = r * c) :
    ∀ i < r, ((v.drop (i * c)).take c).length = c := by
  intro i hi
  rw [List.length_take, List.length_drop, h]
  have hsum : i * c + c ≤ r * c := by
    have h1 : (i + 1) * c ≤ r * c := Nat.mul_le_mul_right _ (Nat.succ_le_of_lt hi)
    calc i * c + c = (i + 1) * c := by ring
    _ ≤ r * c := h1
  omega

theorem np_transpose_shape {m : List (List ℚ)} {c : Nat} (hne : m ≠ [])
    (hc : ∀ row ∈ m, row.length = c) :
    (np_transpose m).length = c ∧
      ∀ row ∈ np_transpose m, row.length = m.length := by
  match m, hne with
  | r0 :: t, _ =>
    have h0 : r0.length = c := hc r0 (List.mem_cons_self _ _)
    refine ⟨by simp [np_transpose, h0], ?_⟩
    intro row hrow
    simp only [np_transpose, List.mem_map, List.mem_range] at hrow
    obtain ⟨j, _, hj⟩ := hrow
    rw [← hj, List.length_map]

/- Concrete instances used to evaluate the model on explicit inputs. -/

/-- A concrete instance: three one-feature rows, res_range = [5],
gain_range = [3/10], two bootstrap replicates, seed 0. -/
def demoWorld : World := ⟨⟨[[1], [2], [3]], [5], [3 / 10], 2, 0⟩, 0⟩

/-- demoWorld with a different incoming generator state. -/
def demoWorldAlt : World := ⟨demoWorld.inst, 999⟩

/-- demoWorld with an empty resolution range. -/
def emptyResWorld : World := ⟨⟨[[1], [2], [3]], [], [3 / 10], 2, 0⟩, 0⟩

/-- demoWorld with a single bootstrap replicate. -/
def oneBootWorld : World := ⟨⟨[[1], [2], [3]], [5], [3 / 10], 1, 0⟩, 0⟩

/-- Evaluates a one-cell grid search symbolically: with a single
resolution and a single gain value and two bootstrap replicates, the
cell holds the mean of the two directed distances between the two graphs
built from the cover record Cover.mk r g — r (the resolution value) in
the perc_overlap slot, g (the gain value) in the n_cubes slot. -/
theorem grid_search_single_cell {G : Type} (mapper : List Row → Cover → G)
    (dist : G → G → ℚ) (w : World) (r g : ℚ) (hres : w.inst.res_range = [r])
    (hgain : w.inst.gain_range = [g]) (hb : w.inst.n_bootstrap = 2) :
    ∃ x0 x1 : List Row, (grid_search mapper dist w).1 =
      some [[(dist (mapper x0 ⟨r, g⟩) (mapper x1 ⟨r, g⟩) +
          dist (mapper x1 ⟨r, g⟩) (mapper x0 ⟨r, g⟩)) / 2]] := by
  have hlen : (get_bootstrap_sample w (7 / 10)).1.length = 2 := by
    simp only [get_bootstrap_sample, List.length_map, bootstrap_indices]
    rw [drawSamples_length, hb]
  obtain ⟨x0, x1, hx⟩ := List.length_eq_two.mp hlen
  refine ⟨x0, x1, ?_⟩
  have hcell : graph_distance_metric dist
      [create_tda_graph mapper x0 r g, create_tda_graph mapper x1 r g] =
      some ((dist (mapper x0 ⟨r, g⟩) (mapper x1 ⟨r, g⟩) +
        dist (mapper x1 ⟨r, g⟩) (mapper x0 ⟨r, g⟩)) / 2) := gdm_cons_cons _ _ _ _
  simp only [grid_search, hres, hgain, hx, List.map_cons, List.map_nil,
    optionMapM, hcell]

/- ------------------------------------------------------------------ -/
/- Claim theorems.                                                     -/
/- ------------------------------------------------------------------ -/

/-- Claim C1: for every list of at least two graphs, the metric returns
on the very first pair (indices 0 and 1): the value is the mean of the
two directed scores d(g0, g1) and d(g1, g0) — which collapses to the
single score when the directions agree — and no later graph pair
contributes (the result does not depend on rest). -/
theorem graph_distance_metric_first_pair_only {G : Type} (dist : G → G → ℚ)
    (g0 g1 : G) (rest : List G) :
    graph_distance_metric dist (g0 :: g1 :: rest) =
      some ((dist g0 g1 + dist g1 g0) / 2) :=
  gdm_cons_cons dist g0 g1 rest

/-- Claim C9: NetSimile dissimilarity between a graph and an identical
copy is zero in both directions, and graph_distance_metric on a list
whose first two graphs are identical returns 0. -/
theorem netsimile_identical_zero {G : Type} (signature : G → List ℚ) (g : G)
    (rest : List G) :
    netsimile_dist signature g g = 0 ∧
      graph_distance_metric (netsimile_dist signature) (g :: g :: rest) = some 0 := by
  have hz : netsimile_dist signature g g = 0 := canberra_self _
  refine ⟨hz, ?_⟩
  rw [gdm_cons_cons, hz]
  norm_num

/-- Claim C2 (refuted by the code — the Cover arguments are swapped):
create_tda_graph puts its third positional argument into the
perc_overlap slot and its fourth into n_cubes, and grid_search calls it
with (sample, res_current, gain_current); on demoWorld (res_range = [5],
gain_range = [3/10]) observing the built cover through the mapper and
reading one field off per run, the cell score shows n_cubes = 3/10 (the
gain value) and perc_overlap = 5 (the resolution value) — the opposite
of what the claim states. -/
theorem grid_search_cover_arguments_swapped :
    (∀ (x : List Row) (p n : ℚ),
        create_tda_graph (fun _ c => c) x p n = Cover.mk p n) ∧
      (grid_search (fun _ c => c) (fun c _ => c.n_cubes) demoWorld).1 =
        some [[3 / 10]] ∧
      (grid_search (fun _ c => c) (fun c _ => c.perc_overlap) demoWorld).1 =
        some [[5]] := by
  refine ⟨fun x p n => rfl, ?_, ?_⟩
  · obtain ⟨x0, x1, hgs⟩ := grid_search_single_cell (fun _ c => c)
      (fun c _ => c.n_cubes) demoWorld 5 (3 / 10) rfl rfl rfl
    rw [hgs]
    norm_num
  · obtain ⟨x0, x1, hgs⟩ := grid_search_single_cell (fun _ c => c)
      (fun c _ => c.perc_overlap) demoWorld 5 (3 / 10) rfl rfl rfl
    rw [hgs]
    norm_num

/-- Claim C3: the matrix grid_search returns always has shape
(res_range.length, gain_range.length); an empty range yields a
degenerate matrix without any error from the grid loop itself. -/
theorem grid_search_matrix_shape {G : Type} (mapper : List Row → Cover → G)
    (dist : G → G → ℚ) (w : World) :
    (∀ m, (grid_search mapper dist w).1 = some m →
        m.length = w.inst.res_range.length ∧
          ∀ row ∈ m, row.length = w.inst.gain_range.length) ∧
      ((w.inst.res_range = [] ∨ w.inst.gain_range = []) →
        ∃ m, (grid_search mapper dist w).1 = some m ∧
          m.length = w.inst.res_range.length ∧
          ∀ row ∈ m, row.length = w.inst.gain_range.length) := by
  constructor
  · intro m hm
    simp only [grid_search] at hm
    refine ⟨optionMapM_length hm, ?_⟩
    intro row hrow
    obtain ⟨res, _, hres⟩ := optionMapM_mem hm row hrow
    exact optionMapM_length hres
  · intro hor
    rcases hor with h | h
    · refine ⟨[], ?_, by simp [h], by simp⟩
      simp only [grid_search, h, optionMapM]
    · refine ⟨w.inst.res_range.map (fun _ => ([] : List ℚ)), ?_, by simp, ?_⟩
      · simp only [grid_search]
        exact optionMapM_of_forall_some (fun r => by rw [h]; rfl) _
      · intro row hrow
        simp only [List.mem_map] at hrow
        obtain ⟨_, _, hr⟩ := hrow
        simp [← hr, h]

/-- Witness for C3: on emptyResWorld (empty res_range) the grid search
returns the degenerate 0-row matrix. -/
theorem grid_search_matrix_shape_witness :
    ∃ m, (grid_search (fun _ c => c) (fun c _ => c.n_cubes) emptyResWorld).1 =
        some m ∧ m.length = 0 ∧ ∀ row ∈ m, row.length = 1 := by
  have h := (grid_search_matrix_shape (fun _ c => c) (fun c _ => c.n_cubes)
    emptyResWorld).2 (Or.inl rfl)
  simpa [emptyResWorld] using h

/-- Claim C4: get_bootstrap_sample produces exactly n_bootstrap samples;
each drawn index list has exactly round(n * frac) entries, is free of
duplicates (sampling without replacement), and only contains valid row
positions; each returned sample array therefore has round(n * frac)
rows. -/
theorem get_bootstrap_sample_spec (w : World) (frac : ℚ)
    (hk : (pyround ((w.inst.data.length : ℚ) * frac)).toNat ≤ w.inst.data.length) :
    (bootstrap_indices w frac).1.length = w.inst.n_bootstrap ∧
      (get_bootstrap_sample w frac).1.length = w.inst.n_bootstrap ∧
      (∀ y ∈ (bootstrap_indices w frac).1,
        y.length = (pyround ((w.inst.data.length : ℚ) * frac)).toNat ∧ y.Nodup ∧
          ∀ i ∈ y, i < w.inst.data.length) ∧
      ∀ x ∈ (get_bootstrap_sample w frac).1,
        x.length = (pyround ((w.inst.data.length : ℚ) * frac)).toNat := by
  have hmem : ∀ y ∈ (bootstrap_indices w frac).1,
      y.length = (pyround ((w.inst.data.length : ℚ) * frac)).toNat ∧ y.Nodup ∧
        ∀ i ∈ y, i < w.inst.data.length := by
    intro y hy
    simp only [bootstrap_indices, List.length_range] at hy
    obtain ⟨t, ht⟩ := drawSamples_mem _ _ _ _ y hy
    have hkr : (pyround ((w.inst.data.length : ℚ) * frac)).toNat ≤
        (List.range w.inst.data.length).length := by
      rw [List.length_range]; exact hk
    refine ⟨?_, ?_, ?_⟩
    · rw [ht]; exact randomSample_length _ _ _ hkr
    · rw [ht]; exact randomSample_nodup _ _ _ (List.nodup_range _)
    · intro i hi
      rw [ht] at hi
      exact List.mem_range.mp (randomSample_subset _ _ _ _ hi)
  refine ⟨?_, ?_, hmem, ?_⟩
  · simp only [bootstrap_indices, List.length_range]
    exact drawSamples_length _ _ _ _
  · simp only [get_bootstrap_sample, List.length_map, bootstrap_indices,
      List.length_range]
    exact drawSamples_length _ _ _ _
  · intro x hx
    simp only [get_bootstrap_sample, List.mem_map] at hx
    obtain ⟨y, hy, hxy⟩ := hx
    rw [← hxy, List.length_map]
    exact (hmem y hy).1

theorem pyround_demo : pyround ((demoWorld.inst.data.length : ℚ) * (7 / 10)) = 2 := by
  have h3 : ((demoWorld.inst.data.length : ℚ) * (7 / 10)) = 21 / 10 := by
    have : demoWorld.inst.data.length = 3 := rfl
    rw [this]
    norm_num
  have hf : ⌊(21 : ℚ) / 10⌋ = 2 := by
    rw [Int.floor_eq_iff]
    norm_num
  rw [h3]
  unfold pyround
  rw [hf]
  norm_num

/-- Witness for C4 on demoWorld: round(3 * 0.7) = 2 indices per draw,
two samples, and the first drawn index list has no duplicates. -/
theorem get_bootstrap_sample_spec_witness :
    (bootstrap_indices demoWorld (7 / 10)).1.length = 2 ∧
      (get_bootstrap_sample demoWorld (7 / 10)).1.length = 2 ∧
      ((bootstrap_indices demoWorld (7 / 10)).1.getD 0 []).Nodup := by
  have h := get_bootstrap_sample_spec demoWorld (7 / 10)
    (by rw [pyround_demo]; decide)
  have h1 : (bootstrap_indices demoWorld (7 / 10)).1.length = 2 := h.1.trans rfl
  refine ⟨h1, h.2.1.trans rfl, ?_⟩
  obtain ⟨a, b, hab⟩ := List.length_eq_two.mp h1
  have hm : (bootstrap_indices demoWorld (7 / 10)).1.getD 0 [] ∈
      (bootstrap_indices demoWorld (7 / 10)).1 := by
    rw [hab]
    simp
  exact (h.2.2.1 _ hm).2.1

/-- Claim C5: get_bootstrap_sample re-seeds the generator at the start
of every call, so two calls on worlds sharing the same instance (same
data, fraction and seed) — whatever the incoming global generator state
— return identical index draws and identical sample arrays. -/
theorem get_bootstrap_sample_deterministic (w1 w2 : World) (frac : ℚ)
    (h : w1.inst = w2.inst) :
    (bootstrap_indices w1 frac).1 = (bootstrap_indices w2 frac).1 ∧
      (get_bootstrap_sample w1 frac).1 = (get_bootstrap_sample w2 frac).1 := by
  constructor <;> simp only [bootstrap_indices, get_bootstrap_sample, h]

/-- Witness for C5: demoWorld and demoWorldAlt differ only in the
incoming generator state and draw identical bootstrap samples. -/
theorem get_bootstrap_sample_deterministic_witness :
    (bootstrap_indices demoWorld (7 / 10)).1 =
        (bootstrap_indices demoWorldAlt (7 / 10)).1 ∧
      (get_bootstrap_sample demoWorld (7 / 10)).1 =
        (get_bootstrap_sample demoWorldAlt (7 / 10)).1 :=
  get_bootstrap_sample_deterministic demoWorld demoWorldAlt (7 / 10) rfl

/-- Claim C8: neither get_bootstrap_sample nor grid_search modifies the
stored dataset: the world they return (the generator state does change)
carries the same data. -/
theorem data_never_modified {G : Type} (mapper : List Row → Cover → G)
    (dist : G → G → ℚ) (w : World) (frac : ℚ) :
    (get_bootstrap_sample w frac).2.inst.data = w.inst.data ∧
      (grid_search mapper dist w).2.inst.data = w.inst.data :=
  ⟨rfl, rfl⟩

/-- Claim C10: with fewer than two graphs both loops of
graph_distance_metric are empty and it returns None; consequently
grid_search with n_bootstrap < 2 and nonempty ranges aborts at the first
matrix-cell assignment (modelled by none) instead of returning a score
matrix. -/
theorem graph_distance_metric_under_two {G : Type} (dist : G → G → ℚ) :
    (∀ gl : List G, gl.length < 2 → graph_distance_metric dist gl = none) ∧
      ∀ (mapper : List Row → Cover → G) (w : World),
        w.inst.n_bootstrap < 2 → w.inst.res_range ≠ [] →
          w.inst.gain_range ≠ [] → (grid_search mapper dist w).1 = none := by
  refine ⟨gdm_short dist, ?_⟩
  intro mapper w hb hres hgain
  obtain ⟨r, rs, hr⟩ := List.exists_cons_of_ne_nil hres
  obtain ⟨g, gs, hg⟩ := List.exists_cons_of_ne_nil hgain
  have hsamples : (get_bootstrap_sample w (7 / 10)).1.length = w.inst.n_bootstrap := by
    simp only [get_bootstrap_sample, List.length_map, bootstrap_indices]
    exact drawSamples_length _ _ _ _
  have hcell : ∀ rc gc : ℚ, graph_distance_metric dist
      ((get_bootstrap_sample w (7 / 10)).1.map
        (fun x => create_tda_graph mapper x rc gc)) = none := by
    intro rc gc
    apply gdm_short
    rw [List.length_map, hsamples]
    exact hb
  simp only [grid_search, hr, hg]
  exact optionMapM_none_of_head (optionMapM_none_of_head (hcell r g))

/-- Witness for C10: the empty graph list gives None, and oneBootWorld
(one bootstrap replicate) makes the grid search abort. -/
theorem graph_distance_metric_under_two_witness :
    graph_distance_metric (fun a b : ℚ => a - b) ([] : List ℚ) = none ∧
      (grid_search (fun _ c => c.n_cubes) (fun a b => a - b) oneBootWorld).1 =
        none :=
  ⟨(graph_distance_metric_under_two _).1 [] (by decide),
    (graph_distance_metric_under_two _).2 _ oneBootWorld (by decide) (by decide)
      (by decide)⟩

/-- Claim C6: whenever the feature matrix has the seven structural
feature columns and the five aggregate statistics netrd computes, the
table graph_properties_stats returns exists and has exactly 5 rows
labeled mean/median/std/skewness/kurtosis and exactly 7 columns with the
fixed feature names, whatever the graph (and hence whatever the number
of nodes). -/
theorem graph_properties_stats_shape {G : Type} (mapper : List Row → Cover → G)
    (featX : G → List (List ℚ)) (stats : List (List ℚ → ℚ))
    (gp : GraphProperties) (hs : stats.length = 5)
    (hf : ∀ g : G, (featX g).length = 7) :
    ∃ df, graph_properties_stats mapper featX stats gp = some df ∧
      df.index = row_names ∧ df.columns = col_names ∧
      df.values.length = 5 ∧ ∀ row ∈ df.values, row.length = 7 := by
  have hlen : (graph_signature stats
      (featX (create_tda_graph mapper gp.data gp.res gp.gain))).length = 7 * 5 := by
    rw [graph_signature_length, hf, hs]
  set sig := graph_signature stats
    (featX (create_tda_graph mapper gp.data gp.res gp.gain)) with hsigdef
  set M := (List.range 7).map (fun i => (sig.drop (i * 5)).take 5) with hMdef
  have hM : np_reshape sig 7 5 = some M := by
    rw [np_reshape, if_pos hlen, hMdef]
  have hMlen : M.length = 7 := by rw [hMdef, List.length_map, List.length_range]
  have hMne : M ≠ [] := by
    intro hnil
    rw [hnil] at hMlen
    exact absurd hMlen (by decide)
  have hrows : ∀ row ∈ M, row.length = 5 := by
    intro row hrow
    rw [hMdef] at hrow
    simp only [List.mem_map, List.mem_range] at hrow
    obtain ⟨i, hi7, hieq⟩ := hrow
    rw [← hieq]
    exact reshape_row_length hlen i hi7
  obtain ⟨ht1, ht2⟩ := np_transpose_shape hMne hrows
  refine ⟨⟨np_transpose M, row_names, col_names⟩, ?_, rfl, rfl, ht1, ?_⟩
  · show stats_table sig = _
    unfold stats_table
    rw [hM]
  · intro row hrow
    rw [ht2 row hrow, hMlen]

/-- Witness for C6 at a concrete configuration: seven empty feature
columns and five zero statistics. -/
theorem graph_properties_stats_shape_witness :
    ∃ df, graph_properties_stats (fun _ c => c)
        (fun _ : Cover => List.replicate 7 ([] : List ℚ))
        (List.replicate 5 (fun _ => (0 : ℚ))) ⟨[[1]], 5, 3 / 10, 0⟩ = some df ∧
      df.index = row_names ∧ df.columns = col_names ∧
      df.values.length = 5 ∧ ∀ row ∈ df.values, row.length = 7 :=
  graph_properties_stats_shape _ _ _ _ (by simp) (fun _ => by simp)

/-- Claim C7: the reshape-transpose-label tail of
graph_properties_stats raises (returns none) exactly when the signature
vector does not have 35 = 7 * 5 elements, and completes when it does. -/
theorem stats_table_reshape_iff (sig : List ℚ) :
    (stats_table sig = none ↔ sig.length ≠ 35) ∧
      (sig.length = 35 → ∃ df, stats_table sig = some df) := by
  by_cases h : sig.length = 7 * 5
  · have hM : np_reshape sig 7 5 =
        some ((List.range 7).map (fun i => (sig.drop (i * 5)).take 5)) := by
      rw [np_reshape, if_pos h]
    refine ⟨?_, fun _ => ⟨_, by unfold stats_table; rw [hM]⟩⟩
    simp [stats_table, hM, h]
  · have hM : np_reshape sig 7 5 = none := by rw [np_reshape, if_neg h]
    exact ⟨⟨fun _ => by omega, fun _ => by simp [stats_table, hM]⟩,
      fun h35 => absurd h35 (by omega)⟩

/-- Witness for C7: a 35-element signature reshapes fine, a short one
raises. -/
theorem stats_table_reshape_iff_witness :
    (∃ df, stats_table (List.replicate 35 (0 : ℚ)) = some df) ∧
      stats_table [] = none :=
  ⟨(stats_table_reshape_iff _).2 (by simp),
    (stats_table_reshape_iff _).1.mpr (by simp)⟩

end TDATuning
